import Mathlib

/-!
Verification of the istar idock worker (src/idock/src/main.cpp, src/idock/src/box.hpp).

This file gives a shallow embedding of the worker's top-level slice loop:
the hard-coded slice table, the scoring-function precalculation fan-out,
the job-document bound resolution, the fixed-column descriptor parsing,
the per-ligand filter / grid-map / Monte-Carlo / CSV pipeline, and the
result-set discipline, together with theorems settling the specification
claims about them.

Numbers are modelled with exact arithmetic: `fl` (a C++ float/double) is
embedded as `ℚ` where the code is algebraic and as `ℝ` where it takes
square roots; machine `size_t` indices are embedded as `ℕ`.
-/

namespace Istar

/-! ## Slice table (main.cpp line 216) -/

/-- The hard-coded 101-element slice boundary table from main.cpp. -/
def slices : List ℕ :=
  [0, 121712, 243424, 365136, 486848, 608560, 730272, 851984, 973696,
   1095408, 1217120, 1338832, 1460544, 1582256, 1703968, 1825680, 1947392,
   2069104, 2190816, 2312528, 2434240, 2555952, 2677664, 2799376, 2921088,
   3042800, 3164512, 3286224, 3407936, 3529648, 3651360, 3773072, 3894784,
   4016496, 4138208, 4259920, 4381632, 4503344, 4625056, 4746768, 4868480,
   4990192, 5111904, 5233616, 5355328, 5477040, 5598752, 5720464, 5842176,
   5963888, 6085600, 6207312, 6329024, 6450736, 6572448, 6694160, 6815872,
   6937584, 7059296, 7181008, 7302720, 7424432, 7546144, 7667856, 7789568,
   7911280, 8032992, 8154704, 8276416, 8398128, 8519840, 8641552, 8763264,
   8884976, 9006688, 9128400, 9250112, 9371824, 9493536, 9615248, 9736960,
   9858672, 9980384, 10102096, 10223808, 10345520, 10467232, 10588944,
   10710655, 10832366, 10954077, 11075788, 11197499, 11319210, 11440921,
   11562632, 11684343, 11806054, 11927765, 12049476, 12171187]

/-- Ligand indices processed by the per-slice loop `for (i = start_lig; i < end_lig; ++i)`
(main.cpp line 303): the half-open interval of naturals from `startL` to `endL`. -/
def processedIds (startL endL : ℕ) : List ℕ :=
  List.range' startL (endL - startL)

/-! ## Scoring-function precalculation fan-out (main.cpp lines 136-150) -/

/-- The ordered pairs `(t1, t2)` for which a `scoring_function::precalculate`
task is pushed, in push order: the double loop
`for (t1 = 0; t1 < XS_TYPE_SIZE; ++t1) for (t2 = t1; t2 < XS_TYPE_SIZE; ++t2)`. -/
def sfTaskPairs (T : ℕ) : List (ℕ × ℕ) :=
  (List.range T).flatMap fun t1 => (List.range' t1 (T - t1)).map fun t2 => (t1, t2)

/-- Events of the worker's startup sequence: scoring-function task dispatch,
the `tp.sync()` barrier that ends precalculation, then job executions. -/
inductive StartEv where
  | sfDispatch (p : ℕ × ℕ)
  | sfSync
  | jobStart (j : ℕ)
deriving DecidableEq

/-- The main thread's startup event sequence: all scoring-function tasks are
dispatched and synced (main.cpp lines 146-149) before the job loop
(main.cpp line 164) runs any job. -/
def startupTrace (T : ℕ) (jobs : List ℕ) : List StartEv :=
  ((sfTaskPairs T).map StartEv.sfDispatch ++ [StartEv.sfSync])
    ++ jobs.map StartEv.jobStart

/-- Whether a startup event belongs to the scoring-function precalculation phase. -/
def StartEv.isSf : StartEv → Prop
  | .sfDispatch _ => True
  | .sfSync => True
  | .jobStart _ => False

/-- Whether a startup event is a job execution. -/
def StartEv.isJob : StartEv → Prop
  | .jobStart _ => True
  | _ => False

/-! ## Distance samples rs (main.cpp lines 127-133)

The scoring-function constants (`Num_Samples`, `Cutoff`, `Factor`) live in
scoring_function.hpp, which is not part of this repository snapshot; only the
loop `rs[i] = sqrt(i * Factor_Inverse)` and the two boundary assertions are
in main.cpp. -/

/-- The distance-sample vector of main.cpp line 130: `rs[i] = sqrt(i * Factor_Inverse)`. -/
noncomputable def rs (FactorInverse : ℝ) (i : ℕ) : ℝ :=
  Real.sqrt (i * FactorInverse)

/-- Modelled from the spec: scoring_function.hpp is not under src/; the spec
defines `Factor = Num_Samples/Cutoff²` for `Num_Samples` squared-distance
samples spanning `[0, Cutoff²]`. -/
noncomputable def Factor_spec (NumSamples : ℕ) (Cutoff : ℝ) : ℝ :=
  NumSamples / Cutoff ^ 2

/-! ## Default filter bounds (main.cpp lines 92-109) -/

def default_mwt_lb : ℚ := 400
def default_mwt_ub : ℚ := 500
def default_logp_lb : ℚ := -1
def default_logp_ub : ℚ := 6
def default_ad_lb : ℚ := -50
def default_ad_ub : ℚ := 50
def default_pd_lb : ℚ := -150
def default_pd_ub : ℚ := 0
def default_hbd_lb : ℚ := 1
def default_hbd_ub : ℚ := 6
def default_hba_lb : ℚ := 1
def default_hba_ub : ℚ := 10
def default_tpsa_lb : ℚ := 20
def default_tpsa_ub : ℚ := 80
def default_charge_lb : ℚ := 0
def default_charge_ub : ℚ := 0
def default_nrb_lb : ℚ := 2
def default_nrb_ub : ℚ := 9

/-- A fetched job document's optional filter-bound fields
(`p["mwt_lb"].ok() ? ... : ...` etc., main.cpp lines 196-213). -/
structure JobDoc where
  mwt_lb? : Option ℚ := none
  mwt_ub? : Option ℚ := none
  logp_lb? : Option ℚ := none
  logp_ub? : Option ℚ := none
  ad_lb? : Option ℚ := none
  ad_ub? : Option ℚ := none
  pd_lb? : Option ℚ := none
  pd_ub? : Option ℚ := none
  hbd_lb? : Option ℚ := none
  hbd_ub? : Option ℚ := none
  hba_lb? : Option ℚ := none
  hba_ub? : Option ℚ := none
  tpsa_lb? : Option ℚ := none
  tpsa_ub? : Option ℚ := none
  charge_lb? : Option ℚ := none
  charge_ub? : Option ℚ := none
  nrb_lb? : Option ℚ := none
  nrb_ub? : Option ℚ := none
deriving DecidableEq

/-- The resolved filter bounds used by the per-ligand filter. -/
structure Bounds where
  mwt_lb : ℚ
  mwt_ub : ℚ
  logp_lb : ℚ
  logp_ub : ℚ
  ad_lb : ℚ
  ad_ub : ℚ
  pd_lb : ℚ
  pd_ub : ℚ
  hbd_lb : ℚ
  hbd_ub : ℚ
  hba_lb : ℚ
  hba_ub : ℚ
  tpsa_lb : ℚ
  tpsa_ub : ℚ
  charge_lb : ℚ
  charge_ub : ℚ
  nrb_lb : ℚ
  nrb_ub : ℚ
deriving DecidableEq

/-- Bound resolution from the job document, one ternary per field
(main.cpp lines 196-213).  Note the fallbacks of `charge_lb` and `charge_ub`
are `default_nrb_lb` and `default_nrb_ub`, exactly as in the source. -/
def resolveBounds (p : JobDoc) : Bounds where
  mwt_lb := p.mwt_lb?.getD default_mwt_lb
  mwt_ub := p.mwt_ub?.getD default_mwt_ub
  logp_lb := p.logp_lb?.getD default_logp_lb
  logp_ub := p.logp_ub?.getD default_logp_ub
  ad_lb := p.ad_lb?.getD default_ad_lb
  ad_ub := p.ad_ub?.getD default_ad_ub
  pd_lb := p.pd_lb?.getD default_pd_lb
  pd_ub := p.pd_ub?.getD default_pd_ub
  hbd_lb := p.hbd_lb?.getD default_hbd_lb
  hbd_ub := p.hbd_ub?.getD default_hbd_ub
  hba_lb := p.hba_lb?.getD default_hba_lb
  hba_ub := p.hba_ub?.getD default_hba_ub
  tpsa_lb := p.tpsa_lb?.getD default_tpsa_lb
  tpsa_ub := p.tpsa_ub?.getD default_tpsa_ub
  charge_lb := p.charge_lb?.getD default_nrb_lb
  charge_ub := p.charge_ub?.getD default_nrb_ub
  nrb_lb := p.nrb_lb?.getD default_nrb_lb
  nrb_ub := p.nrb_ub?.getD default_nrb_ub

/-! ## Fixed-column descriptor parsing (main.cpp lines 311-324) -/

/-- The character content extracted by `line.substr(pos, len)`:
`len` characters starting at 0-based offset `pos`. -/
def substrChars (line : List Char) (pos len : ℕ) : List Char :=
  (line.drop pos).take len

/-- Modelled from the spec: the template `right_cast<T>(line, i, j)` lives in
a utility header that is not under src/; per the spec's fixed-column table
(spec section 6, Library storage), a call with arguments `(i, j)` reads the
1-based inclusive byte columns `i+1 .. j`, i.e. the 0-based half-open
character range `[i, j)` of the first record line. -/
def right_cast_chars (line : List Char) (i j : ℕ) : List Char :=
  (line.drop i).take (j - i)

/-- The characters at the 1-based inclusive byte columns `a..b` of a line,
as the spec words its column table. -/
def columns_1based (line : List Char) (a b : ℕ) : List Char :=
  (line.drop (a - 1)).take (b - a + 1)

/-- The nine numeric descriptor fields of a ligand record's first line,
in the order the code extracts them (main.cpp lines 312-320). -/
structure Descriptor where
  mwt : ℚ
  logp : ℚ
  ad : ℚ
  pd : ℚ
  hbd : ℚ
  hba : ℚ
  tpsa : ℚ
  charge : ℚ
  nrb : ℚ
deriving DecidableEq

/-- The conjunction of the eighteen inclusive comparisons of main.cpp line 321;
the ligand is processed further exactly when this returns `true`. -/
def passes_filter (b : Bounds) (d : Descriptor) : Bool :=
  decide (b.mwt_lb ≤ d.mwt) && decide (d.mwt ≤ b.mwt_ub) &&
  decide (b.logp_lb ≤ d.logp) && decide (d.logp ≤ b.logp_ub) &&
  decide (b.ad_lb ≤ d.ad) && decide (d.ad ≤ b.ad_ub) &&
  decide (b.pd_lb ≤ d.pd) && decide (d.pd ≤ b.pd_ub) &&
  decide (b.hbd_lb ≤ d.hbd) && decide (d.hbd ≤ b.hbd_ub) &&
  decide (b.hba_lb ≤ d.hba) && decide (d.hba ≤ b.hba_ub) &&
  decide (b.tpsa_lb ≤ d.tpsa) && decide (d.tpsa ≤ b.tpsa_ub) &&
  decide (b.charge_lb ≤ d.charge) && decide (d.charge ≤ b.charge_ub) &&
  decide (b.nrb_lb ≤ d.nrb) && decide (d.nrb ≤ b.nrb_ub)

/-! ## Result-set discipline (spec 4.6; result.hpp is not under src/) -/

/-- Maximum number of results kept per container (main.cpp line 112). -/
def max_results : ℕ := 20

/-- Number of Monte Carlo tasks dispatched per ligand (main.cpp line 86). -/
def num_mc_tasks : ℕ := 32

/-- Cap consulted by the final per-ligand loop (main.cpp line 111). -/
def max_conformations : ℕ := 100

/-- A docking result: total free energy `f` and the heavy-atom positions
used for RMSD clustering.  The conformation itself plays no role in the
claims and is omitted. -/
structure MCResult where
  f : ℚ
  heavy : List (ℚ × ℚ × ℚ)
deriving DecidableEq

/-- Modelled from the spec: the clustering displacement of result.hpp is not
under src/; per spec section 3, two results are compared by the sum over
heavy atoms of the squared per-atom displacement. -/
def sqDisp (xs ys : List (ℚ × ℚ × ℚ)) : ℚ :=
  (List.zipWith
    (fun a b => (a.1 - b.1) ^ 2 + (a.2.1 - b.2.1) ^ 2 + (a.2.2 - b.2.2) ^ 2)
    xs ys).sum

/-- Insertion in ascending-energy position: the new result goes immediately
before the first existing result of strictly larger `f`. -/
def insertSortedResult (r : MCResult) : List MCResult → List MCResult
  | [] => [r]
  | q :: qs => if r.f < q.f then r :: q :: qs else q :: insertSortedResult r qs

/-- Modelled from the spec: `add_to_result_container` (result.hpp) is not
under src/; per spec section 4.6, for a new candidate `r` and cluster
threshold `S`: find the first existing result within threshold; if it is at
least as good, drop `r`; if it is worse, replace it by `r` and re-sort;
if none exists, insert `r` in sorted position and trim to `max_results`. -/
def add_to_result_container (rss : List MCResult) (r : MCResult) (S : ℚ) :
    List MCResult :=
  match rss.find? (fun q => decide (sqDisp q.heavy r.heavy < S)) with
  | some q => if q.f ≤ r.f then rss else insertSortedResult r (rss.erase q)
  | none => (insertSortedResult r rss).take max_results

/-! ## CSV formatting (main.cpp lines 300-302 and 415) -/

/-- Three decimal digits, zero padded: the fractional part printed by a
stream in `std::ios::fixed` mode with `setprecision(3)`. -/
def pad3 (n : ℕ) : String :=
  String.mk [Nat.digitChar (n / 100 % 10), Nat.digitChar (n / 10 % 10),
             Nat.digitChar (n % 10)]

/-- Fixed-point formatting with three fractional digits, as performed by the
csv stream configured with `std::ios::fixed` and `setprecision(3)`:
the value is scaled by 1000, rounded to the nearest integer, and printed as
sign, integer digits, a dot, and exactly three fractional digits. -/
def formatFixed3 (q : ℚ) : String :=
  (if round (q * 1000) < 0 then "-" else "")
    ++ Nat.repr ((round (q * 1000)).natAbs / 1000)
    ++ "." ++ pad3 ((round (q * 1000)).natAbs % 1000)

/-! ## Per-ligand pipeline (main.cpp lines 303-416) -/

/-- One ligand record of the library, with the descriptor fields of its
first line, its distinct XScore atom types, and the outcome of each of the
`num_mc_tasks` Monte Carlo tasks (the stochastic search itself lives in
monte_carlo_task.hpp, outside src/, so task outcomes are inputs here). -/
structure LigandRecord where
  zinc_id : String
  desc : Descriptor
  atomTypes : List ℕ
  num_heavy_atoms : ℕ
  flexibility_penalty_factor : ℚ
  taskResults : List (List MCResult)

/-- The merge of main.cpp lines 383-394: task result lists are consumed in
task-index order, each result being fed to `add_to_result_container` with
cluster threshold `4 * num_heavy_atoms`. -/
def mergedResults (l : LigandRecord) : List MCResult :=
  l.taskResults.foldl
    (fun acc tr =>
      tr.foldl (fun a r => add_to_result_container a r (4 * l.num_heavy_atoms)) acc)
    []

/-- The characters appended to the csv for one surviving ligand
(main.cpp lines 400-415): nothing when the merged list is empty, otherwise
the id, a comma, the flexibility-adjusted best energy, and a newline. -/
def emitLine (l : LigandRecord) : String :=
  match mergedResults l with
  | [] => ""
  | r :: _ => l.zinc_id ++ "," ++ formatFixed3 (r.f * l.flexibility_penalty_factor) ++ "\n"

/-- The csv characters contributed by one ligand of the slice loop:
empty when the filter rejects it, else `emitLine`. -/
def csvAppend (b : Bounds) (l : LigandRecord) : String :=
  if passes_filter b l.desc then emitLine l else ""

/-- Mutable state of one slice run: which XScore atom types have an
initialized grid map, and the csv contents written so far. -/
structure SliceState where
  inited : Finset ℕ
  csv : String

/-- The loop of main.cpp lines 333-341 over the ligand's atom types:
an already initialized type is skipped; a missing type's grid map is resized
(marking it initialized) and the type is queued for population.  Returns the
updated initialized set and the queued types in queue order. -/
def markTypes (inited : Finset ℕ) : List ℕ → Finset ℕ × List ℕ
  | [] => (inited, [])
  | t :: ts =>
    if t ∈ inited then markTypes inited ts
    else
      let p := markTypes (insert t inited) ts
      (p.1, t :: p.2)

/-- One iteration of the slice loop (main.cpp lines 303-416) acting on the
slice state: filter, grid-map bookkeeping, Monte Carlo merge, csv append. -/
def processLigand (b : Bounds) (st : SliceState) (l : LigandRecord) : SliceState :=
  if passes_filter b l.desc then
    { inited := (markTypes st.inited l.atomTypes).1
      csv := st.csv ++ emitLine l }
  else st

/-- Events performed by the main thread while processing one ligand. -/
inductive Ev where
  | gmDispatch (x : ℕ)
  | gmGet (x : ℕ)
  | gmSync
  | mcDispatch (i : ℕ)
  | mcGet (i : ℕ)
  | mcSync
  | csvWrite
deriving DecidableEq

/-- The main-thread event sequence of one slice-loop iteration, with
`G = num_gm_tasks = b.num_probes[0]` grid-map tasks: a rejected ligand
produces no events; otherwise, when some atom types need population, all
grid-map tasks are dispatched (tp.run, line 356), each future is gotten
(lines 359-362) and the pool is synced (line 365), and only then are the
Monte Carlo tasks dispatched (line 379), gotten (line 386) and synced
(line 397), followed by the csv write for a non-empty merged list. -/
def ligTrace (b : Bounds) (G : ℕ) (st : SliceState) (l : LigandRecord) : List Ev :=
  if passes_filter b l.desc then
    (if (markTypes st.inited l.atomTypes).2.isEmpty then []
     else (List.range G).map Ev.gmDispatch ++ (List.range G).map Ev.gmGet ++ [Ev.gmSync])
    ++ ((List.range num_mc_tasks).map Ev.mcDispatch
        ++ (List.range num_mc_tasks).map Ev.mcGet
        ++ [Ev.mcSync]
        ++ (if (mergedResults l).isEmpty then [] else [Ev.csvWrite]))
  else []

/-- Whether an event certifies completion of a grid-map task on the main
thread: a gotten grid-map future or the pool barrier. -/
def Ev.isGmComplete : Ev → Prop
  | .gmGet _ => True
  | .gmSync => True
  | _ => False

/-- Whether an event dispatches a Monte Carlo task. -/
def Ev.isMcDispatch : Ev → Prop
  | .mcDispatch _ => True
  | _ => False

/-- Whether an event dispatches a grid-map task. -/
def Ev.isGmDispatch : Ev → Prop
  | .gmDispatch _ => True
  | _ => False

/-- The slice loop over its ligand records. -/
def runSlice (b : Bounds) (st : SliceState) (ligs : List LigandRecord) : SliceState :=
  ligs.foldl (processLigand b) st

/-- One job execution over a slice, main.cpp lines 288-416.  If the csv file
already exists the code opens it for reading but extracts nothing from it
(`if (exists(csv_path)) { ifstream csv(csv_path); }`, lines 289-293), so the
`prior` contents are unused; the subsequent `ofstream csv(csv_path)`
truncates the file, then writes a single newline and `setprecision(3)`
(line 302), and the loop runs over every ligand index in
`[startL, endL)` regardless of any earlier run. -/
def runJob (prior : Option String) (b : Bounds) (inited0 : Finset ℕ)
    (lib : ℕ → LigandRecord) (startL endL : ℕ) : SliceState :=
  runSlice b { inited := inited0, csv := "\n" } ((processedIds startL endL).map lib)

/-- The concatenation, in ligand order, of the csv characters contributed by
each ligand of a slice (one line per surviving ligand, nothing otherwise). -/
def sliceLines (b : Bounds) : List LigandRecord → String
  | [] => ""
  | l :: ls => csvAppend b l ++ sliceLines b ls

/-! ## Concrete sample data for exercising the model -/

/-- Filter bounds resolved from a job document with no optional fields:
every bound takes its default. -/
def defaultBounds : Bounds := resolveBounds {}

/-- A descriptor whose nine fields all satisfy the default bounds. -/
def descOk : Descriptor where
  mwt := 450
  logp := 1
  ad := 0
  pd := -1
  hbd := 2
  hba := 2
  tpsa := 30
  charge := 3
  nrb := 3

/-- A descriptor with molecular weight 399.9, just below the default
lower bound of 400; its other fields satisfy the default bounds. -/
def desc399 : Descriptor where
  mwt := mkRat 3999 10
  logp := 1
  ad := 0
  pd := -1
  hbd := 2
  hba := 2
  tpsa := 30
  charge := 3
  nrb := 3

/-- A surviving ligand whose Monte Carlo tasks produced one result of
energy -2, with flexibility penalty factor 1. -/
def demoLig : LigandRecord where
  zinc_id := "ZINC0001"
  desc := descOk
  atomTypes := []
  num_heavy_atoms := 1
  flexibility_penalty_factor := 1
  taskResults := [[⟨-2, []⟩]]

/-- A ligand rejected by the default molecular-weight filter. -/
def ligRej : LigandRecord :=
  ⟨"ZINC0002", desc399, [0, 2], 5, 1, []⟩

/-- A passing ligand with atom types 6 and 7 and no Monte Carlo results. -/
def demoLig2 : LigandRecord :=
  ⟨"ZINC0003", descOk, [6, 7], 1, 1, []⟩

/-- A passing ligand with the single atom type 3 and no Monte Carlo results. -/
def demoLig3 : LigandRecord :=
  ⟨"ZINC0004", descOk, [3], 1, 1, []⟩

/-! ## Helper lemmas -/

theorem sum_map_succ (l : List ℕ) (f : ℕ → ℕ) :
    (l.map fun x => f x + 1).sum = (l.map f).sum + l.length := by
  induction l with
  | nil => simp
  | cons a t ih => simp [ih]; omega

theorem sum_map_single (g : ℕ → ℕ) (a : ℕ) (hga : g a = 1)
    (hg0 : ∀ x, x ≠ a → g x = 0) :
    ∀ n, a < n → ((List.range n).map g).sum = 1 := by
  intro n
  induction n with
  | zero => omega
  | succ n ih =>
    intro han
    rw [List.range_succ, List.map_append, List.sum_append]
    by_cases h : a = n
    · subst h
      have h0 : ((List.range a).map g).sum = 0 :=
        List.sum_eq_zero (by
          intro x hx
          rw [List.mem_map] at hx
          obtain ⟨y, hy, rfl⟩ := hx
          rw [List.mem_range] at hy
          exact hg0 y (by omega))
      simp [h0, hga]
    · have : a < n := by omega
      simp [ih this, hg0 n (fun he => h he.symm)]

theorem ordered_before {α : Type} (A B : List α) (P Q : α → Prop)
    (hA : ∀ e ∈ A, ¬ Q e) (hB : ∀ e ∈ B, ¬ P e) (i j : ℕ) (e e' : α)
    (hi : (A ++ B)[i]? = some e) (hP : P e)
    (hj : (A ++ B)[j]? = some e') (hQ : Q e') : i < j := by
  have hiA : i < A.length := by
    by_contra hge
    rw [List.getElem?_append_right (by omega)] at hi
    exact hB e (List.getElem?_mem hi) hP
  have hjB : A.length ≤ j := by
    by_contra hlt
    rw [List.getElem?_append_left (by omega)] at hj
    exact hA e' (List.getElem?_mem hj) hQ
  omega

theorem markTypes_snd_mem (L : List ℕ) :
    ∀ (inited : Finset ℕ) (t : ℕ),
      t ∈ (markTypes inited L).2 ↔ t ∈ L ∧ t ∉ inited := by
  induction L with
  | nil => intro inited t; simp [markTypes]
  | cons u ts ih =>
    intro inited t
    by_cases hu : u ∈ inited
    · rw [markTypes, if_pos hu, ih]
      constructor
      · rintro ⟨h1, h2⟩; exact ⟨List.mem_cons_of_mem u h1, h2⟩
      · rintro ⟨h1, h2⟩
        rcases List.mem_cons.1 h1 with rfl | h1
        · exact absurd hu h2
        · exact ⟨h1, h2⟩
    · rw [markTypes, if_neg hu]
      simp only [List.mem_cons, ih (insert u inited) t, Finset.mem_insert]
      constructor
      · rintro (rfl | ⟨h1, h2⟩)
        · exact ⟨Or.inl rfl, hu⟩
        · exact ⟨Or.inr h1, fun hc => h2 (Or.inr hc)⟩
      · rintro ⟨rfl | h1, h2⟩
        · exact Or.inl rfl
        · by_cases htu : t = u
          · exact Or.inl htu
          · exact Or.inr ⟨h1, fun hc => (hc.elim htu h2)⟩

theorem markTypes_fst_mono (L : List ℕ) :
    ∀ inited : Finset ℕ, inited ⊆ (markTypes inited L).1 := by
  induction L with
  | nil => intro inited; rw [markTypes]
  | cons u ts ih =>
    intro inited
    by_cases hu : u ∈ inited
    · rw [markTypes, if_pos hu]; exact ih inited
    · rw [markTypes, if_neg hu]
      exact (Finset.subset_insert u inited).trans (ih (insert u inited))

theorem processLigand_inited_mono (b : Bounds) (st : SliceState) (l : LigandRecord) :
    st.inited ⊆ (processLigand b st l).inited := by
  rw [processLigand]
  by_cases h : passes_filter b l.desc
  · rw [if_pos h]; exact markTypes_fst_mono l.atomTypes st.inited
  · rw [if_neg h]

theorem runSlice_inited_mono (b : Bounds) (ligs : List LigandRecord) :
    ∀ st : SliceState, st.inited ⊆ (runSlice b st ligs).inited := by
  induction ligs with
  | nil => intro st; rw [runSlice, List.foldl_nil]
  | cons l ls ih =>
    intro st
    exact (processLigand_inited_mono b st l).trans (ih (processLigand b st l))

theorem processLigand_csv (b : Bounds) (st : SliceState) (l : LigandRecord) :
    (processLigand b st l).csv = st.csv ++ csvAppend b l := by
  rw [processLigand, csvAppend]
  by_cases h : passes_filter b l.desc
  · rw [if_pos h, if_pos h]
  · rw [if_neg h, if_neg h, String.append_empty]

theorem runSlice_csv (b : Bounds) (ligs : List LigandRecord) :
    ∀ st : SliceState, (runSlice b st ligs).csv = st.csv ++ sliceLines b ligs := by
  induction ligs with
  | nil => intro st; rw [runSlice, List.foldl_nil, sliceLines, String.append_empty]
  | cons l ls ih =>
    intro st
    rw [runSlice, List.foldl_cons, sliceLines, ← String.append_assoc,
      ← processLigand_csv b st l]
    exact ih (processLigand b st l)

theorem mem_insertSortedResult (r a : MCResult) (l : List MCResult) :
    a ∈ insertSortedResult r l ↔ a = r ∨ a ∈ l := by
  induction l with
  | nil => simp [insertSortedResult]
  | cons q qs ih =>
    rw [insertSortedResult]
    by_cases h : r.f < q.f
    · rw [if_pos h]
      simp [List.mem_cons]
    · rw [if_neg h]
      simp only [List.mem_cons, ih]
      tauto

theorem pairwise_insertSortedResult (r : MCResult) (l : List MCResult)
    (h : l.Pairwise fun a b => a.f ≤ b.f) :
    (insertSortedResult r l).Pairwise fun a b => a.f ≤ b.f := by
  induction l with
  | nil => simp [insertSortedResult]
  | cons q qs ih =>
    rw [insertSortedResult]
    by_cases hlt : r.f < q.f
    · rw [if_pos hlt, List.pairwise_cons]
      refine ⟨?_, h⟩
      intro b hb
      rcases List.mem_cons.1 hb with rfl | hb
      · exact le_of_lt hlt
      · exact (le_of_lt hlt).trans (List.rel_of_pairwise_cons h hb)
    · rw [if_neg hlt, List.pairwise_cons]
      refine ⟨?_, ih h.of_cons⟩
      intro b hb
      rcases (mem_insertSortedResult r b qs).1 hb with rfl | hb
      · exact le_of_not_lt hlt
      · exact List.rel_of_pairwise_cons h hb

theorem pairwise_add_to_result_container (rss : List MCResult) (r : MCResult) (S : ℚ)
    (h : rss.Pairwise fun a b => a.f ≤ b.f) :
    (add_to_result_container rss r S).Pairwise fun a b => a.f ≤ b.f := by
  rw [add_to_result_container]
  cases hf : rss.find? fun q => decide (sqDisp q.heavy r.heavy < S) with
  | none =>
    exact List.Pairwise.sublist (List.take_sublist _ _)
      (pairwise_insertSortedResult r rss h)
  | some q =>
    dsimp only
    by_cases hq : q.f ≤ r.f
    · rw [if_pos hq]; exact h
    · rw [if_neg hq]
      exact pairwise_insertSortedResult r _
        (List.Pairwise.sublist (List.erase_sublist q rss) h)

theorem pairwise_foldl_add (S : ℚ) (tr : List MCResult) :
    ∀ acc : List MCResult, (acc.Pairwise fun a b => a.f ≤ b.f) →
      ((tr.foldl (fun a r => add_to_result_container a r S) acc).Pairwise
        fun a b => a.f ≤ b.f) := by
  induction tr with
  | nil => intro acc h; exact h
  | cons r rest ih =>
    intro acc h
    exact ih _ (pairwise_add_to_result_container acc r S h)

theorem pairwise_mergedResults (l : LigandRecord) :
    (mergedResults l).Pairwise fun a b => a.f ≤ b.f := by
  rw [mergedResults]
  generalize l.taskResults = trs
  have : ∀ (trs : List (List MCResult)) (acc : List MCResult),
      (acc.Pairwise fun a b => a.f ≤ b.f) →
      ((trs.foldl
          (fun acc tr => tr.foldl
            (fun a r => add_to_result_container a r (4 * l.num_heavy_atoms)) acc)
          acc).Pairwise fun a b => a.f ≤ b.f) := by
    intro trs
    induction trs with
    | nil => intro acc h; exact h
    | cons tr rest ih =>
      intro acc h
      exact ih _ (pairwise_foldl_add _ tr acc h)
  exact this trs [] (by simp)

theorem mergedResults_head_min (l : LigandRecord) (r : MCResult) (rest : List MCResult)
    (h : mergedResults l = r :: rest) : ∀ q ∈ mergedResults l, r.f ≤ q.f := by
  have hp := pairwise_mergedResults l
  rw [h] at hp ⊢
  intro q hq
  rcases List.mem_cons.1 hq with rfl | hq
  · exact le_refl _
  · exact List.rel_of_pairwise_cons hp hq

theorem sum_map_range_eq (n : ℕ) (f : ℕ → ℕ) :
    ((List.range n).map f).sum = ∑ i in Finset.range n, f i := by
  induction n with
  | zero => simp
  | succ n ih =>
    rw [List.range_succ, List.map_append, List.sum_append, Finset.sum_range_succ, ih]
    simp

theorem sfTaskPairs_length_mul_two (T : ℕ) :
    2 * (sfTaskPairs T).length = T * (T + 1) := by
  have hlen : (sfTaskPairs T).length = ∑ t1 in Finset.range T, (T - t1) := by
    rw [sfTaskPairs, List.length_flatMap]
    rw [show List.map
          (List.length ∘ fun t1 => (List.range' t1 (T - t1)).map fun t2 => (t1, t2))
          (List.range T)
        = (List.range T).map fun t1 => T - t1 from
      List.map_congr_left (by intro a _; simp [Function.comp, List.length_range'])]
    exact sum_map_range_eq T fun t1 => T - t1
  rw [hlen]
  have hreflect : ∑ t1 in Finset.range T, (T - t1) = ∑ j in Finset.range T, (j + 1) := by
    rw [← Finset.sum_range_reflect (fun j => j + 1) T]
    apply Finset.sum_congr rfl
    intro j hj
    rw [Finset.mem_range] at hj
    omega
  rw [hreflect, Finset.sum_add_distrib, Finset.sum_const, Finset.card_range, smul_eq_mul,
    mul_one]
  have gauss := Finset.sum_range_id_mul_two T
  cases T with
  | zero => simp
  | succ n =>
    rw [Nat.succ_sub_one] at gauss
    calc 2 * ((∑ i in Finset.range (n + 1), i) + (n + 1))
        = (∑ i in Finset.range (n + 1), i) * 2 + 2 * (n + 1) := by ring
      _ = (n + 1) * n + 2 * (n + 1) := by rw [gauss]
      _ = (n + 1) * (n + 1 + 1) := by ring

theorem mem_sfTaskPairs (T t1 t2 : ℕ) :
    (t1, t2) ∈ sfTaskPairs T ↔ t1 ≤ t2 ∧ t2 < T := by
  rw [sfTaskPairs, List.mem_flatMap]
  constructor
  · rintro ⟨a, ha, hmem⟩
    rw [List.mem_range] at ha
    rw [List.mem_map] at hmem
    obtain ⟨b, hb, heq⟩ := hmem
    rw [List.mem_range'] at hb
    obtain ⟨i, hi, rfl⟩ := hb
    cases heq
    omega
  · rintro ⟨h1, h2⟩
    refine ⟨t1, List.mem_range.2 (by omega), List.mem_map.2 ⟨t2, ?_, rfl⟩⟩
    rw [List.mem_range']
    exact ⟨t2 - t1, by omega, by omega⟩

theorem count_range_pair (a t1 : ℕ) : ∀ (n s t2 : ℕ),
    ((List.range' s n).map fun b => (a, b)).count (t1, t2)
      = if a = t1 ∧ s ≤ t2 ∧ t2 < s + n then 1 else 0 := by
  intro n
  induction n with
  | zero =>
    intro s t2
    rw [if_neg (by omega)]
    rfl
  | succ n ih =>
    intro s t2
    rw [List.range'_succ, List.map_cons, List.count_cons, ih (s + 1) t2]
    have hbeq : (((a, s) : ℕ × ℕ) == (t1, t2)) = decide (a = t1 ∧ s = t2) := by
      by_cases h : a = t1 ∧ s = t2
      · obtain ⟨rfl, rfl⟩ := h
        simp
      · rw [decide_eq_false h]
        by_cases h1 : a = t1
        · subst h1
          have h2 : s ≠ t2 := fun hc => h ⟨rfl, hc⟩
          simp [h2]
        · simp [h1]
    rw [hbeq]
    simp only [decide_eq_true_eq]
    split_ifs <;> omega

theorem count_sfTaskPairs (T t1 t2 : ℕ) (h1 : t1 ≤ t2) (h2 : t2 < T) :
    (sfTaskPairs T).count (t1, t2) = 1 := by
  rw [sfTaskPairs, List.count_flatMap]
  have hmap : (List.map (List.count (t1, t2) ∘ fun a =>
        (List.range' a (T - a)).map fun b => (a, b)) (List.range T))
      = (List.range T).map fun a =>
          if a = t1 ∧ a ≤ t2 ∧ t2 < a + (T - a) then 1 else 0 := by
    apply List.map_congr_left
    intro a _
    exact count_range_pair a t1 (T - a) a t2
  rw [hmap]
  exact sum_map_single (fun a => if a = t1 ∧ a ≤ t2 ∧ t2 < a + (T - a) then 1 else 0)
    t1 (if_pos (by omega)) (fun x hx => if_neg fun hc => hx hc.1) T (by omega)

/-! ## Claim theorems -/

/-- C1: within a slice an atom type `t` is queued for grid-map population
exactly when its grid map is not yet initialized; the initialized set only
grows, both over one ligand and over any remaining ligand list; an already
initialized type is never queued again; and a ligand all of whose atom
types are already initialized dispatches no grid-map task at all. -/
theorem grid_maps_initialized_once (b : Bounds) (st : SliceState) (l : LigandRecord)
    (t : ℕ) :
    (t ∈ (markTypes st.inited l.atomTypes).2 ↔ t ∈ l.atomTypes ∧ t ∉ st.inited)
    ∧ st.inited ⊆ (processLigand b st l).inited
    ∧ (∀ ligs, st.inited ⊆ (runSlice b st ligs).inited)
    ∧ (t ∈ st.inited → t ∉ (markTypes st.inited l.atomTypes).2)
    ∧ ((∀ u ∈ l.atomTypes, u ∈ st.inited) →
        ∀ (G : ℕ) (e : Ev), e ∈ ligTrace b G st l → ¬ e.isGmDispatch) := by
  refine ⟨markTypes_snd_mem l.atomTypes st.inited t, processLigand_inited_mono b st l,
    fun ligs => runSlice_inited_mono b ligs st, ?_, ?_⟩
  · intro ht hmem
    exact ((markTypes_snd_mem l.atomTypes st.inited t).1 hmem).2 ht
  · intro hall G e he
    have hempty : (markTypes st.inited l.atomTypes).2 = [] := by
      rw [List.eq_nil_iff_forall_not_mem]
      intro u hu
      obtain ⟨h1, h2⟩ := (markTypes_snd_mem l.atomTypes st.inited u).1 hu
      exact h2 (hall u h1)
    by_cases hp : passes_filter b l.desc = true
    · rw [ligTrace, if_pos hp, hempty] at he
      simp only [List.isEmpty_nil, if_true, List.nil_append] at he
      rcases List.mem_append.1 he with h1 | h1
      · rcases List.mem_append.1 h1 with h2 | h2
        · rcases List.mem_append.1 h2 with h3 | h3
          · obtain ⟨x, _, rfl⟩ := List.mem_map.1 h3
            intro hc; exact hc
          · obtain ⟨x, _, rfl⟩ := List.mem_map.1 h3
            intro hc; exact hc
        · rw [List.mem_singleton] at h2
          subst h2
          intro hc; exact hc
      · by_cases hm : (mergedResults l).isEmpty
        · rw [if_pos hm] at h1
          exact absurd h1 (List.not_mem_nil e)
        · rw [if_neg hm, List.mem_singleton] at h1
          subst h1
          intro hc; exact hc
    · rw [ligTrace, if_neg hp] at he
      exact absurd he (List.not_mem_nil e)

/-- Witness for C1 at concrete data: with types 6 and 7 already initialized,
a type is queued iff missing, and a second ligand with types {6, 7} puts no
grid-map dispatch into its trace (exercised at the event `mcDispatch 0`,
which is in the trace). -/
theorem grid_maps_initialized_once_witness :
    (6 ∈ (markTypes ({6, 7} : Finset ℕ) [6, 7]).2
      ↔ 6 ∈ ([6, 7] : List ℕ) ∧ 6 ∉ ({6, 7} : Finset ℕ))
    ∧ ¬ (Ev.mcDispatch 0).isGmDispatch := by
  have h := grid_maps_initialized_once defaultBounds ⟨{6, 7}, "\n"⟩ demoLig2 6
  exact ⟨h.1, h.2.2.2.2 (by decide) 3 (Ev.mcDispatch 0) (by decide)⟩

/-- C2 counterexample: the slice table has 101 entries, its index-100 entry
is 12171187 (the terminal bound), not 12049476 as the claim's `s = 100`
range would require, and there is no entry at index 101 to serve as that
range's upper bound. -/
theorem slice_index_counterexample :
    slices.length = 101 ∧ slices.getD 100 0 = 12171187
    ∧ slices.getD 100 0 ≠ 12049476 ∧ slices[101]? = none := by
  refine ⟨rfl, rfl, by decide, rfl⟩

/-- C2 (amended): over the 101-element ascending table, for every slice
index `s < 100` the processed ligand range is exactly
`[slices[s], slices[s+1])`; slice 0 covers 0..121711 and slice 99 covers
12049476..12171186 (12171187 is the terminal bound at index 100). -/
theorem slice_ranges :
    slices.length = 101 ∧ slices.getD 0 0 = 0 ∧ slices.getD 1 0 = 121712
    ∧ slices.getD 99 0 = 12049476 ∧ slices.getD 100 0 = 12171187
    ∧ (∀ s, s < 100 → slices.getD s 0 < slices.getD (s + 1) 0)
    ∧ (∀ s, s < 100 → ∀ i : ℕ,
        i ∈ processedIds (slices.getD s 0) (slices.getD (s + 1) 0)
          ↔ slices.getD s 0 ≤ i ∧ i < slices.getD (s + 1) 0) := by
  have hmono : ∀ s, s < 100 → slices.getD s 0 < slices.getD (s + 1) 0 := by decide
  refine ⟨rfl, rfl, rfl, rfl, rfl, hmono, ?_⟩
  intro s hs i
  have h := hmono s hs
  rw [processedIds, List.mem_range']
  constructor
  · rintro ⟨j, hj, rfl⟩
    omega
  · rintro ⟨hle, hlt⟩
    exact ⟨i - slices.getD s 0, by omega, by omega⟩

/-- Witness for C2 at slice 0: the first slice's range is characterized at
ligand index 121711, its last element. -/
theorem slice_ranges_witness :
    (0 : ℕ) < 100 ∧ slices.getD 0 0 < slices.getD 1 0
    ∧ (121711 ∈ processedIds (slices.getD 0 0) (slices.getD 1 0)
        ↔ slices.getD 0 0 ≤ 121711 ∧ 121711 < slices.getD 1 0) :=
  ⟨by decide, slice_ranges.2.2.2.2.2.1 0 (by decide),
    slice_ranges.2.2.2.2.2.2 0 (by decide) 121711⟩

/-- C3 counterexample: with the spec's example constants `Num_Samples =
2048`, `Cutoff = 8` and the spec's `Factor = Num_Samples/Cutoff² = 32`, the
last sample is `rs[2047] = sqrt(2047/32) < 8`, so the asserted boundary
`rs[Num_Samples-1] = Cutoff` fails (while `rs[0] = 0` does hold). -/
theorem rs_factor_counterexample :
    rs (Factor_spec 2048 8)⁻¹ 0 = 0 ∧ rs (Factor_spec 2048 8)⁻¹ 2047 ≠ 8 := by
  have hfac : Factor_spec 2048 8 = 32 := by
    rw [Factor_spec]
    norm_num
  constructor
  · simp [rs]
  · rw [rs, hfac]
    intro h
    have hx : ((2047 : ℕ) : ℝ) * (32 : ℝ)⁻¹ = 2047 / 32 := by
      push_cast
      ring
    rw [hx] at h
    have h2 : ((2047 : ℝ) / 32) = 8 ^ 2 := by
      rw [← Real.sq_sqrt (by norm_num : (0 : ℝ) ≤ 2047 / 32), h]
    norm_num at h2

/-- C3 (amended): the boundary assertions of main.cpp lines 132-133 hold
when the constants satisfy `Factor·Cutoff² = Num_Samples - 1`, i.e.
`Factor_Inverse = Cutoff²/(Num_Samples-1)`: then `rs[0] = 0` and
`rs[Num_Samples-1] = Cutoff`. -/
theorem rs_boundaries (N : ℕ) (C : ℝ) (h0 : 0 ≤ C) (h2 : 2 ≤ N) :
    rs (C ^ 2 / ((N : ℝ) - 1)) 0 = 0 ∧ rs (C ^ 2 / ((N : ℝ) - 1)) (N - 1) = C := by
  constructor
  · simp [rs]
  · rw [rs]
    have hN : ((N - 1 : ℕ) : ℝ) = (N : ℝ) - 1 := by
      rw [Nat.cast_sub (by omega : 1 ≤ N), Nat.cast_one]
    rw [hN]
    have hne : (N : ℝ) - 1 ≠ 0 := by
      have hc : (2 : ℝ) ≤ (N : ℝ) := by exact_mod_cast h2
      linarith
    have hmul : ((N : ℝ) - 1) * (C ^ 2 / ((N : ℝ) - 1)) = C ^ 2 := by
      field_simp
    rw [hmul, Real.sqrt_sq h0]

/-- Witness for C3 with the source-sized constants `Num_Samples = 16385`
and `Cutoff = 8` (so `Factor = 256`): both boundary values hold. -/
theorem rs_boundaries_witness :
    (0 : ℝ) ≤ 8 ∧ 2 ≤ 16385
    ∧ rs ((8 : ℝ) ^ 2 / (((16385 : ℕ) : ℝ) - 1)) 0 = 0
    ∧ rs ((8 : ℝ) ^ 2 / (((16385 : ℕ) : ℝ) - 1)) (16385 - 1) = 8 :=
  ⟨by norm_num, by norm_num,
    (rs_boundaries 16385 8 (by norm_num) (by norm_num)).1,
    (rs_boundaries 16385 8 (by norm_num) (by norm_num)).2⟩

/-- C4 (amended): a surviving ligand with non-empty merged result list
appends exactly one line `"<id>,<e_nd>\n"` to the csv, where `e_nd` is the
head result's `f` times the flexibility penalty factor and the head's `f`
is minimal over the merged list; an empty merged list or a filtered-out
ligand appends nothing; and the whole slice csv is the initial newline
written at stream setup (main.cpp line 302) followed by exactly the
surviving ligands' lines. -/
theorem csv_line_per_survivor (bd : Bounds) (st : SliceState) (l : LigandRecord) :
    (∀ (r : MCResult) (rest : List MCResult),
        passes_filter bd l.desc = true → mergedResults l = r :: rest →
        (processLigand bd st l).csv
            = st.csv ++ (l.zinc_id ++ ","
                ++ formatFixed3 (r.f * l.flexibility_penalty_factor) ++ "\n")
          ∧ ∀ q ∈ mergedResults l, r.f ≤ q.f)
    ∧ (mergedResults l = [] → (processLigand bd st l).csv = st.csv)
    ∧ (passes_filter bd l.desc = false → (processLigand bd st l).csv = st.csv)
    ∧ ∀ (prior : Option String) (i0 : Finset ℕ) (lib : ℕ → LigandRecord) (sL eL : ℕ),
        (runJob prior bd i0 lib sL eL).csv
          = "\n" ++ sliceLines bd ((processedIds sL eL).map lib) := by
  refine ⟨?_, ?_, ?_, ?_⟩
  · intro r rest hp hm
    constructor
    · rw [processLigand_csv, csvAppend, if_pos hp]
      simp only [emitLine, hm]
    · exact mergedResults_head_min l r rest hm
  · intro hm
    rw [processLigand_csv, csvAppend]
    by_cases hp : passes_filter bd l.desc = true
    · rw [if_pos hp]
      simp only [emitLine, hm]
      exact String.append_empty st.csv
    · rw [if_neg hp]
      exact String.append_empty st.csv
  · intro hp
    rw [processLigand_csv, csvAppend, if_neg (by simp [hp])]
    exact String.append_empty st.csv
  · intro prior i0 lib sL eL
    rw [runJob, runSlice_csv]

/-- C4 counterexample: running one surviving ligand yields a csv whose
content is a newline followed by the ligand's line, so the file's first
line is empty — the csv does not consist solely of one line per surviving
ligand. -/
theorem csv_leading_blank_line :
    (runJob none defaultBounds ∅ (fun _ => demoLig) 0 1).csv
      = "\n" ++ "ZINC0001,-2.000\n"
    ∧ "\n" ++ "ZINC0001,-2.000\n" ≠ "ZINC0001,-2.000\n"
    ∧ ("\n" ++ "ZINC0001,-2.000\n").data.head? = some '\n' := by
  have hpass : passes_filter defaultBounds demoLig.desc = true := by decide
  have hm : mergedResults demoLig = [⟨-2, []⟩] := by decide
  have hf : formatFixed3 ((-2 : ℚ) * 1) = "-2.000" := by
    have hm1 : (-2 : ℚ) * 1 = -2 := by norm_num
    rw [hm1]
    have hr : round ((-2 : ℚ) * 1000) = -2000 := by norm_num [round_eq]
    rw [formatFixed3, hr]
    decide
  refine ⟨?_, by decide, by decide⟩
  have hids : (processedIds 0 1).map (fun _ : ℕ => demoLig) = [demoLig] := rfl
  rw [runJob, runSlice_csv, hids, sliceLines, sliceLines, csvAppend, if_pos hpass,
    String.append_empty]
  have hemit : emitLine demoLig
      = "ZINC0001" ++ "," ++ formatFixed3 ((-2 : ℚ) * 1) ++ "\n" := by
    simp only [emitLine, hm]
    rfl
  rw [hemit, hf]
  decide

/-- Witness for C4 with the concrete surviving ligand: the filter passes,
the merged list is the single result of energy -2, and the csv gains the
one line built from it. -/
theorem csv_line_per_survivor_witness :
    passes_filter defaultBounds demoLig.desc = true
    ∧ mergedResults demoLig = [⟨-2, []⟩]
    ∧ (processLigand defaultBounds ⟨∅, "\n"⟩ demoLig).csv
        = "\n" ++ ("ZINC0001" ++ ","
            ++ formatFixed3 ((-2 : ℚ) * demoLig.flexibility_penalty_factor) ++ "\n") := by
  have h1 : passes_filter defaultBounds demoLig.desc = true := by decide
  have h2 : mergedResults demoLig = [⟨-2, []⟩] := by decide
  exact ⟨h1, h2,
    ((csv_line_per_survivor defaultBounds ⟨∅, "\n"⟩ demoLig).1 ⟨-2, []⟩ [] h1 h2).1⟩

/-- C5: when the job document omits the charge bounds, they are resolved
from `default_nrb_lb = 2` and `default_nrb_ub = 9`, while the declared
`default_charge_lb = default_charge_ub = 0` are used in neither branch of
the resolution. -/
theorem charge_fallback_uses_nrb_defaults (p : JobDoc) :
    (p.charge_lb? = none → (resolveBounds p).charge_lb = default_nrb_lb)
    ∧ (p.charge_ub? = none → (resolveBounds p).charge_ub = default_nrb_ub)
    ∧ (∀ q : ℚ, p.charge_lb? = some q → (resolveBounds p).charge_lb = q)
    ∧ (∀ q : ℚ, p.charge_ub? = some q → (resolveBounds p).charge_ub = q)
    ∧ default_nrb_lb = 2 ∧ default_nrb_ub = 9
    ∧ default_charge_lb = 0 ∧ default_charge_ub = 0
    ∧ (p.charge_lb? = none → (resolveBounds p).charge_lb ≠ default_charge_lb)
    ∧ (p.charge_ub? = none → (resolveBounds p).charge_ub ≠ default_charge_ub) := by
  refine ⟨?_, ?_, ?_, ?_, rfl, rfl, rfl, rfl, ?_, ?_⟩
  · intro h
    simp [resolveBounds, h]
  · intro h
    simp [resolveBounds, h]
  · intro q h
    simp [resolveBounds, h]
  · intro q h
    simp [resolveBounds, h]
  · intro h
    simp only [resolveBounds, h, Option.getD_none]
    rw [default_nrb_lb, default_charge_lb]
    norm_num
  · intro h
    simp only [resolveBounds, h, Option.getD_none]
    rw [default_nrb_ub, default_charge_ub]
    norm_num

/-- Witness for C5 at the empty job document: the resolved charge bounds
are 2 and 9, not the charge defaults. -/
theorem charge_fallback_witness :
    (resolveBounds {}).charge_lb = default_nrb_lb
    ∧ (resolveBounds {}).charge_ub = default_nrb_ub
    ∧ (resolveBounds {}).charge_lb ≠ default_charge_lb
    ∧ (resolveBounds {}).charge_ub ≠ default_charge_ub :=
  ⟨(charge_fallback_uses_nrb_defaults {}).1 rfl,
    (charge_fallback_uses_nrb_defaults {}).2.1 rfl,
    (charge_fallback_uses_nrb_defaults {}).2.2.2.2.2.2.2.2.1 rfl,
    (charge_fallback_uses_nrb_defaults {}).2.2.2.2.2.2.2.2.2 rfl⟩

/-- C6: under the modelled `right_cast` semantics, the ten descriptor
extractions of main.cpp lines 312-324 read exactly the claimed 1-based
inclusive byte columns: id 11..18, mwt 22..28, logp 31..37, ad 40..46,
pd 49..55, hbd 58..59, hba 62..63, tpsa 66..67, charge 70..71,
nrb 74..75. -/
theorem descriptor_columns (line : List Char) :
    substrChars line 10 8 = columns_1based line 11 18
    ∧ right_cast_chars line 21 28 = columns_1based line 22 28
    ∧ right_cast_chars line 30 37 = columns_1based line 31 37
    ∧ right_cast_chars line 39 46 = columns_1based line 40 46
    ∧ right_cast_chars line 48 55 = columns_1based line 49 55
    ∧ right_cast_chars line 57 59 = columns_1based line 58 59
    ∧ right_cast_chars line 61 63 = columns_1based line 62 63
    ∧ right_cast_chars line 65 67 = columns_1based line 66 67
    ∧ right_cast_chars line 69 71 = columns_1based line 70 71
    ∧ right_cast_chars line 73 75 = columns_1based line 74 75 :=
  ⟨rfl, rfl, rfl, rfl, rfl, rfl, rfl, rfl, rfl, rfl⟩

/-- C7: the filter of main.cpp line 321 passes exactly when all nine
descriptor fields lie inclusively within their bounds; a rejected ligand
leaves the slice state unchanged and generates no events (no Monte Carlo
dispatch, no csv write); a passing ligand has all `num_mc_tasks` Monte
Carlo dispatches in its trace. -/
theorem filter_inclusive_iff (bd : Bounds) :
    (∀ d : Descriptor, passes_filter bd d = true ↔
      ((bd.mwt_lb ≤ d.mwt ∧ d.mwt ≤ bd.mwt_ub)
        ∧ (bd.logp_lb ≤ d.logp ∧ d.logp ≤ bd.logp_ub)
        ∧ (bd.ad_lb ≤ d.ad ∧ d.ad ≤ bd.ad_ub)
        ∧ (bd.pd_lb ≤ d.pd ∧ d.pd ≤ bd.pd_ub)
        ∧ (bd.hbd_lb ≤ d.hbd ∧ d.hbd ≤ bd.hbd_ub)
        ∧ (bd.hba_lb ≤ d.hba ∧ d.hba ≤ bd.hba_ub)
        ∧ (bd.tpsa_lb ≤ d.tpsa ∧ d.tpsa ≤ bd.tpsa_ub)
        ∧ (bd.charge_lb ≤ d.charge ∧ d.charge ≤ bd.charge_ub)
        ∧ (bd.nrb_lb ≤ d.nrb ∧ d.nrb ≤ bd.nrb_ub)))
    ∧ ∀ (st : SliceState) (l : LigandRecord) (G : ℕ),
        (passes_filter bd l.desc = false →
          processLigand bd st l = st ∧ ligTrace bd G st l = [])
        ∧ (passes_filter bd l.desc = true →
            ∀ i, i < num_mc_tasks → Ev.mcDispatch i ∈ ligTrace bd G st l) := by
  constructor
  · intro d
    rw [passes_filter]
    simp only [Bool.and_eq_true, decide_eq_true_eq]
    tauto
  · intro st l G
    constructor
    · intro hf
      constructor
      · rw [processLigand, if_neg (by simp [hf])]
      · rw [ligTrace, if_neg (by simp [hf])]
    · intro ht i hi
      rw [ligTrace, if_pos ht]
      refine List.mem_append.2 (Or.inr ?_)
      refine List.mem_append.2 (Or.inl ?_)
      refine List.mem_append.2 (Or.inl ?_)
      refine List.mem_append.2 (Or.inl ?_)
      exact List.mem_map.2 ⟨i, List.mem_range.2 hi, rfl⟩

/-- Witness for C7: the ligand with mwt 399.9 fails the default filter
(lower bound 400) and is skipped with no state change and no events. -/
theorem filter_inclusive_iff_witness :
    passes_filter defaultBounds ligRej.desc = false
    ∧ processLigand defaultBounds ⟨∅, "\n"⟩ ligRej = ⟨∅, "\n"⟩
    ∧ ligTrace defaultBounds 3 ⟨∅, "\n"⟩ ligRej = [] := by
  have h : passes_filter defaultBounds ligRej.desc = false := by decide
  have h2 := ((filter_inclusive_iff defaultBounds).2 ⟨∅, "\n"⟩ ligRej 3).1 h
  exact ⟨h, h2.1, h2.2⟩

/-- C8: for a ligand that triggers grid-map population, every grid-map
future is gotten and the pool barrier is reached in the ligand's trace, and
every such completion event precedes every Monte Carlo dispatch of the same
ligand. -/
theorem gm_complete_before_mc (bd : Bounds) (G : ℕ) (st : SliceState)
    (l : LigandRecord) (hp : passes_filter bd l.desc = true)
    (hne : (markTypes st.inited l.atomTypes).2 ≠ []) :
    (∀ x, x < G → Ev.gmGet x ∈ ligTrace bd G st l)
    ∧ Ev.gmSync ∈ ligTrace bd G st l
    ∧ ∀ (i j : ℕ) (e e' : Ev),
        (ligTrace bd G st l)[i]? = some e → e.isGmComplete →
        (ligTrace bd G st l)[j]? = some e' → e'.isMcDispatch → i < j := by
  have hres : ligTrace bd G st l
      = ((List.range G).map Ev.gmDispatch ++ (List.range G).map Ev.gmGet ++ [Ev.gmSync])
        ++ ((List.range num_mc_tasks).map Ev.mcDispatch
            ++ (List.range num_mc_tasks).map Ev.mcGet
            ++ [Ev.mcSync]
            ++ (if (mergedResults l).isEmpty then [] else [Ev.csvWrite])) := by
    rw [ligTrace, if_pos hp,
      if_neg (fun hc => hne (List.isEmpty_iff.1 hc))]
  refine ⟨?_, ?_, ?_⟩
  · intro x hx
    rw [hres]
    refine List.mem_append.2 (Or.inl ?_)
    refine List.mem_append.2 (Or.inl ?_)
    refine List.mem_append.2 (Or.inr ?_)
    exact List.mem_map.2 ⟨x, List.mem_range.2 hx, rfl⟩
  · rw [hres]
    exact List.mem_append.2 (Or.inl (List.mem_append.2 (Or.inr (List.mem_singleton.2 rfl))))
  · intro i j e e' hi hP hj hQ
    rw [hres] at hi hj
    refine ordered_before _ _ Ev.isGmComplete Ev.isMcDispatch ?_ ?_ i j e e' hi hP hj hQ
    · intro ev hev hc
      rcases List.mem_append.1 hev with h1 | h1
      · rcases List.mem_append.1 h1 with h2 | h2
        · obtain ⟨x, _, rfl⟩ := List.mem_map.1 h2
          exact hc
        · obtain ⟨x, _, rfl⟩ := List.mem_map.1 h2
          exact hc
      · rw [List.mem_singleton] at h1
        subst h1
        exact hc
    · intro ev hev hc
      rcases List.mem_append.1 hev with h1 | h1
      · rcases List.mem_append.1 h1 with h2 | h2
        · rcases List.mem_append.1 h2 with h3 | h3
          · obtain ⟨x, _, rfl⟩ := List.mem_map.1 h3
            exact hc
          · obtain ⟨x, _, rfl⟩ := List.mem_map.1 h3
            exact hc
        · rw [List.mem_singleton] at h2
          subst h2
          exact hc
      · by_cases hm : (mergedResults l).isEmpty
        · rw [if_pos hm] at h1
          exact absurd h1 (List.not_mem_nil ev)
        · rw [if_neg hm, List.mem_singleton] at h1
          subst h1
          exact hc

/-- Witness for C8 with a ligand of atom type 3 over an empty initialized
set and two grid-map tasks: the trace is the five grid-map events followed
by the Monte Carlo block, so the barrier at index 4 precedes the first
Monte Carlo dispatch at index 5. -/
theorem gm_complete_before_mc_witness :
    Ev.gmGet 0 ∈ ligTrace defaultBounds 2 ⟨∅, "\n"⟩ demoLig3 ∧ (4 : ℕ) < 5 := by
  have h := gm_complete_before_mc defaultBounds 2 ⟨∅, "\n"⟩ demoLig3
    (by decide) (by decide)
  exact ⟨h.1 0 (by decide),
    h.2.2 4 5 Ev.gmSync (Ev.mcDispatch 0) (by decide) trivial (by decide) trivial⟩

/-- C9: the startup phase pushes one `precalculate` task per ordered pair
`t1 ≤ t2 < XS_TYPE_SIZE` — `T(T+1)/2` tasks in total, each pair exactly
once — and in the startup trace every scoring-function event precedes
every job execution. -/
theorem sf_precalculate_once (T : ℕ) (jobs : List ℕ) :
    (sfTaskPairs T).length = T * (T + 1) / 2
    ∧ (∀ t1 t2 : ℕ, (t1, t2) ∈ sfTaskPairs T ↔ t1 ≤ t2 ∧ t2 < T)
    ∧ (∀ t1 t2 : ℕ, t1 ≤ t2 → t2 < T → (sfTaskPairs T).count (t1, t2) = 1)
    ∧ ∀ (i j : ℕ) (e e' : StartEv),
        (startupTrace T jobs)[i]? = some e → e.isSf →
        (startupTrace T jobs)[j]? = some e' → e'.isJob → i < j := by
  refine ⟨?_, fun t1 t2 => mem_sfTaskPairs T t1 t2,
    fun t1 t2 => count_sfTaskPairs T t1 t2, ?_⟩
  · have h := sfTaskPairs_length_mul_two T
    omega
  · intro i j e e' hi hP hj hQ
    rw [startupTrace] at hi hj
    refine ordered_before _ _ StartEv.isSf StartEv.isJob ?_ ?_ i j e e' hi hP hj hQ
    · intro ev hev hc
      rcases List.mem_append.1 hev with h1 | h1
      · obtain ⟨p, _, rfl⟩ := List.mem_map.1 h1
        exact hc
      · rw [List.mem_singleton] at h1
        subst h1
        exact hc
    · intro ev hev hc
      obtain ⟨jb, _, rfl⟩ := List.mem_map.1 hev
      exact hc

/-- Witness for C9 at `T = 17` (the usual XS_TYPE_SIZE) and one job: 153
tasks, the pair (0, 16) pushed once, and the barrier at index 153 precedes
the job start at index 154. -/
theorem sf_precalculate_once_witness :
    (sfTaskPairs 17).length = 17 * (17 + 1) / 2
    ∧ (sfTaskPairs 17).count (0, 16) = 1
    ∧ (153 : ℕ) < 154 := by
  have h := sf_precalculate_once 17 [0]
  refine ⟨h.1, h.2.2.1 0 16 (by decide) (by decide), ?_⟩
  exact h.2.2.2 153 154 StartEv.sfSync (StartEv.jobStart 0)
    (by set_option maxRecDepth 4000 in decide) trivial
    (by set_option maxRecDepth 4000 in decide) trivial

/-- C10: a job run is entirely independent of any pre-existing csv
contents (the existence branch reads nothing and the output stream
truncates), the final csv is the fresh newline plus the lines generated
from the full slice, and the processed indices are exactly
`[startL, endL)` — processing always restarts at `start_lig`. -/
theorem csv_truncate_and_restart (prior : Option String) (bd : Bounds)
    (i0 : Finset ℕ) (lib : ℕ → LigandRecord) (sL eL : ℕ) :
    runJob prior bd i0 lib sL eL = runJob none bd i0 lib sL eL
    ∧ (runJob prior bd i0 lib sL eL).csv
        = "\n" ++ sliceLines bd ((processedIds sL eL).map lib)
    ∧ processedIds sL eL = List.range' sL (eL - sL) :=
  ⟨rfl, by rw [runJob, runSlice_csv], rfl⟩

end Istar
